import Mathlib

/-!
# A shallow embedding of the DC circuit solver `simulateCircuit`

Source: `src/simulation/simulator.ts` (the three-argument entry point
`simulateCircuit(components, wires, subcircuits)` described by the spec as
`solve(components, wires, subcircuitLibrary)`).  A second, two-argument
variant of the solver exists in the repository (`src/unnamed/part_000`);
where the two diverge, the three-argument solver is the one embedded here,
and divergences are noted in comments.

Modelling conventions:

* JavaScript `number` is modelled by `ℚ` (exact rational arithmetic in
  place of IEEE-754 float64).  All inputs exercised by the theorems below
  keep every intermediate value exactly representable, except where noted.
* The calls into the `mathjs` library (`math.zeros`, `Matrix.get/set`,
  `math.lusolve`) are modelled by their documented mathematical contracts:
  a zero matrix, functional entry read/update, and LU solving with partial
  pivoting that throws ("Linear system cannot be solved since matrix is
  singular") exactly when elimination meets a pivot column that is entirely
  zero.  Over exact arithmetic, the choice among nonzero pivots affects
  neither the computed solution (it is the unique one) nor the failure
  condition, so the model picks the first nonzero pivot.
* The mutable path-compressed union-find of the source is modelled by the
  root-assignment function it computes: `union(a, b)` redirects the root of
  `b`'s class to the root of `a`'s class, and an unseen terminal is its own
  root.  Path compression changes no `find` result, so it is invisible here.
* JavaScript objects used as string-keyed maps are modelled by association
  lists with replace-or-append insertion (`objSet`), which preserves the
  object's key iteration order.
-/

/-- The component kinds of the editor.  Union of the two `ComponentType`
declarations in the repository (`src/types/types.ts`, which the solver
imports, has `subcircuit` and no `logic-gate`; `src/models/types.ts` has
`logic-gate` and no `subcircuit`).  The solver branches only on
`resistor`, `voltage` and `subcircuit`. -/
inductive CompType where
  | resistor
  | capacitor
  | inductor
  | voltage
  | diode
  | transistor
  | bulb
  | subcircuit
  | logicGate
  deriving DecidableEq, Repr

/-- One endpoint of a wire: `{ componentId, terminal }`. -/
structure TerminalRef where
  componentId : String
  terminal : Nat
  deriving DecidableEq, Repr

/-- `CircuitComponent` from `src/types/types.ts`.  The `terminalMap` field
is omitted: the solver only copies it into a local map
(`subcircuitTerminalToGlobalTerminalMap`) that is never read afterwards,
so it cannot influence any observable behaviour. -/
structure CircuitComponent where
  id : String
  type : CompType
  x : ℚ
  y : ℚ
  value : ℚ
  subcircuitId : Option String := none
  deriving DecidableEq, Repr

/-- `Wire` from `src/types/types.ts`.  The source fields are named `from`
and `to`; `from` is a Lean keyword, hence `fromT`/`toT`. -/
structure Wire where
  id : String
  fromT : TerminalRef
  toT : TerminalRef
  deriving DecidableEq, Repr

/-- `SubCircuit` from `src/types/types.ts`.  The `inputs`, `outputs`,
`width`, `height` fields are omitted: `simulateCircuit` never reads them. -/
structure SubCircuit where
  id : String
  name : String
  internalComponents : List CircuitComponent
  internalWires : List Wire
  deriving DecidableEq, Repr

/-- The solver's return record `{ nodeVoltages, componentCurrents, error? }`. -/
structure SimResult where
  nodeVoltages : List (String × ℚ)
  componentCurrents : List (String × ℚ)
  error : Option String
  deriving DecidableEq, Repr

/-- The terminal id string `` `${componentId}_${terminal}` ``. -/
def termStr (componentId : String) (terminal : Nat) : String :=
  componentId ++ "_" ++ toString terminal

/-- The terminal id string of a wire endpoint. -/
def TerminalRef.str (t : TerminalRef) : String :=
  termStr t.componentId t.terminal

/-! ## Step 1: subcircuit flattening (simulator.ts lines 30–110) -/

/-- The guard `comp.type === 'subcircuit' && comp.subcircuitId` of line 44;
`comp.subcircuitId` is truthy iff it is present and not the empty string. -/
def isInstanceComp (c : CircuitComponent) : Bool :=
  decide (c.type = CompType.subcircuit) &&
    match c.subcircuitId with
    | none => false
    | some sid => decide (sid ≠ "")

/-- `subcircuits.find(s => s.id === comp.subcircuitId)` (line 45). -/
def findDef (ss : List SubCircuit) (c : CircuitComponent) : Option SubCircuit :=
  match c.subcircuitId with
  | none => none
  | some sid => ss.find? (fun s => decide (s.id = sid))

/-- Cloning an internal component under an instance: id gets the instance
prefix `` `${comp.id}_` ``, position is translated by the instance's
placement (lines 56–64). -/
def cloneComp (pre : String) (base : CircuitComponent) (ic : CircuitComponent) :
    CircuitComponent :=
  { ic with id := pre ++ ic.id, x := base.x + ic.x, y := base.y + ic.y }

/-- Cloning an internal wire under an instance: id and both endpoint
component ids get the instance prefix (lines 67–74). -/
def cloneWire (pre : String) (iw : Wire) : Wire :=
  { id := pre ++ iw.id,
    fromT := ⟨pre ++ iw.fromT.componentId, iw.fromT.terminal⟩,
    toT := ⟨pre ++ iw.toT.componentId, iw.toT.terminal⟩ }

/-- `expandedComponents` (lines 43–99): each resolvable subcircuit instance
is replaced in place by its prefixed internal components; an instance whose
definition is missing is skipped entirely (the source logs a console
warning and `return`s from the `forEach` callback, i.e. continues); every
other component is kept as-is. -/
def expandComponents (cs : List CircuitComponent) (ss : List SubCircuit) :
    List CircuitComponent :=
  cs.foldl
    (fun acc c =>
      if isInstanceComp c then
        match findDef ss c with
        | none => acc
        | some d => acc ++ d.internalComponents.map (cloneComp (c.id ++ "_") c)
      else acc ++ [c])
    []

/-- `expandedWires` (lines 67–74 and 101–110): the prefixed internal wires
of each resolvable instance, in instance order, followed by every original
wire unchanged.  Wires touching a dropped instance are kept verbatim
(lines 102–110 push all original wires with no rewriting). -/
def expandWires (cs : List CircuitComponent) (ss : List SubCircuit)
    (ws : List Wire) : List Wire :=
  cs.foldl
    (fun acc c =>
      if isInstanceComp c then
        match findDef ss c with
        | none => acc
        | some d => acc ++ d.internalWires.map (cloneWire (c.id ++ "_"))
      else acc)
    []
  ++ ws

/-! ## Step 2: node identification by union-find (lines 115–184) -/

/-- The effect of `union(a, b)` on the root assignment: the root of `b`'s
class is redirected to the root of `a`'s class (lines 128–134). -/
def ufUnion (f : String → String) (a b : String) : String → String :=
  let ra := f a
  let rb := f b
  if ra = rb then f else fun x => if f x = rb then ra else f x

/-- The root assignment after processing all wires (lines 146–149); an
unseen terminal is its own root. -/
def ufFold (ws : List Wire) : String → String :=
  ws.foldl (fun f w => ufUnion f w.fromT.str w.toT.str) id

/-- Ground selection (lines 151–165): the class of terminal 1 of the first
voltage source, else the class of terminal 0 of the first component, else
none (empty flattened circuit). -/
def groundOf (ecs : List CircuitComponent) (uf : String → String) :
    Option String :=
  match ecs.find? (fun c => decide (c.type = CompType.voltage)) with
  | some v => some (uf (termStr v.id 1))
  | none =>
    match ecs with
    | [] => none
    | c :: _ => some (uf (termStr c.id 0))

/-- Appending an element to a list if absent: the insertion-order `Set.add`
of JavaScript. -/
def addUnique (l : List String) (x : String) : List String :=
  if x ∈ l then l else l ++ [x]

/-- `uniqueNodes` (lines 169–173): the roots of all component terminals in
first-discovery order (component order, terminal 0 then terminal 1). -/
def nodesOf (ecs : List CircuitComponent) (uf : String → String) :
    List String :=
  ecs.foldl
    (fun l c => addUnique (addUnique l (uf (termStr c.id 0))) (uf (termStr c.id 1)))
    []

/-- The non-ground nodes in discovery order (lines 175–184): deleting the
ground node from the insertion-ordered set and indexing the rest by
position. -/
def nonGroundNodes (ecs : List CircuitComponent) (uf : String → String)
    (g : String) : List String :=
  (nodesOf ecs uf).filter (fun n => decide (n ≠ g))

/-- `nodeIndexMap.get(node)`: the matrix index of a node is its position in
the non-ground node list. -/
def idxOf (ns : List String) (x : String) : Option Nat :=
  ns.findIdx? (fun y => decide (y = x))

/-! ## Step 3: system assembly (lines 186–253) -/

/-- Matrices are lists of rows of rationals. -/
abbrev Mat := List (List ℚ)

/-- `G.get([i, j])` with out-of-range reads giving 0 (never exercised by
the source, which only reads entries it created). -/
def matGet (G : Mat) (i j : Nat) : ℚ :=
  (G.getD i []).getD j 0

/-- `G.set([i, j], v)`; out-of-range writes are dropped (never exercised:
the source asserts index validity with `!`). -/
def matSet (G : Mat) (i j : Nat) (v : ℚ) : Mat :=
  G.set i ((G.getD i []).set j v)

/-- The assembly state: conductance matrix `G` and injection vector `I`.
The source's `I` is an N×1 column; it is modelled as a flat vector. -/
structure Sys where
  G : Mat
  I : List ℚ
  deriving DecidableEq, Repr

/-- Row substitution for a grounded voltage source (lines 240–250): zero
out row `i`, set the diagonal to 1 and the injection entry to the source
voltage.  The source guards on the index being present
(`if (idx !== undefined)`). -/
def voltageRowSub (s : Sys) (n : Nat) (target : String) (g : String)
    (ns : List String) (volt : ℚ) : Sys :=
  if target = g then s
  else
    match idxOf ns target with
    | none => s
    | some i =>
      let G1 := (List.range n).foldl (fun A c => matSet A i c 0) s.G
      ⟨matSet G1 i i 1, s.I.set i volt⟩

/-- Processing one component during assembly (lines 191–253).  The
`resistor` branch stamps the conductance `1/value` (no validation of the
value exists in the source; `1/0` is `Infinity` in JavaScript, outside
this rational model, so no theorem below exercises a zero value).  The
`voltage` branch performs row substitution when one terminal is ground;
when neither terminal is ground the source builds an error record and
`return`s it from inside the `forEach` callback (lines 233–237) —
`Array.prototype.forEach` discards that value, so the actual effect is to
skip the component, which is what this model does. -/
def assembleStep (uf : String → String) (g : String) (ns : List String)
    (n : Nat) (s : Sys) (c : CircuitComponent) : Sys :=
  if c.type = CompType.resistor then
    let conductance := 1 / c.value
    let nodeA := uf (termStr c.id 0)
    let nodeB := uf (termStr c.id 1)
    if nodeA ≠ g ∧ nodeB ≠ g then
      match idxOf ns nodeA, idxOf ns nodeB with
      | some i, some j =>
        let G1 := matSet s.G i i (matGet s.G i i + conductance)
        let G2 := matSet G1 j j (matGet G1 j j + conductance)
        let G3 := matSet G2 i j (matGet G2 i j - conductance)
        let G4 := matSet G3 j i (matGet G3 j i - conductance)
        ⟨G4, s.I⟩
      | _, _ => s
    else if nodeA ≠ g then
      match idxOf ns nodeA with
      | some i => ⟨matSet s.G i i (matGet s.G i i + conductance), s.I⟩
      | none => s
    else if nodeB ≠ g then
      match idxOf ns nodeB with
      | some j => ⟨matSet s.G j j (matGet s.G j j + conductance), s.I⟩
      | none => s
    else s
  else if c.type = CompType.voltage then
    let nodeP := uf (termStr c.id 0)
    let nodeN := uf (termStr c.id 1)
    if nodeP = g then voltageRowSub s n nodeN g ns (-c.value)
    else if nodeN = g then voltageRowSub s n nodeP g ns c.value
    else s
  else s

/-- Assembling `(G, I)` by folding over the flattened components from the
zero system (lines 186–253). -/
def assemble (ecs : List CircuitComponent) (uf : String → String)
    (g : String) (ns : List String) : Sys :=
  let n := ns.length
  ecs.foldl (assembleStep uf g ns n)
    ⟨List.replicate n (List.replicate n 0), List.replicate n 0⟩

/-! ## Step 4: the linear solve (lines 255–268)

`math.lusolve` is modelled by exact Gaussian elimination.  It fails
(returns `none`, the image of the thrown singular-matrix error) exactly
when a pivot column is entirely zero. -/

/-- Dot product, truncating at the shorter list. -/
def dotQ : List ℚ → List ℚ → ℚ
  | a :: as, b :: bs => a * b + dotQ as bs
  | _, _ => 0

/-- Selecting a pivot row: the first row whose leading coefficient is
nonzero, together with the remaining rows in order.  `none` iff every
leading coefficient is zero (the singular case). -/
def selectPivot :
    List (List ℚ × ℚ) → Option ((List ℚ × ℚ) × List (List ℚ × ℚ))
  | [] => none
  | r :: rs =>
    if r.1.headD 0 ≠ 0 then some (r, rs)
    else
      match selectPivot rs with
      | none => none
      | some (p, rest) => some (p, r :: rest)

/-- Eliminating the leading column of row `r` using pivot row `p`. -/
def elimRow (p r : List ℚ × ℚ) : List ℚ × ℚ :=
  let f := r.1.headD 0 / p.1.headD 0
  (List.zipWith (fun a b => a - f * b) (r.1.drop 1) (p.1.drop 1),
   r.2 - f * p.2)

/-- Gaussian elimination with back substitution on the augmented system;
`n` is the number of unknowns.  Returns `none` iff some elimination step
finds no nonzero pivot, which over exact arithmetic happens iff the
coefficient matrix is singular — the same condition under which
`math.lusolve` throws. -/
def gaussSolve : Nat → List (List ℚ × ℚ) → Option (List ℚ)
  | 0, _ => some []
  | n + 1, rows =>
    match selectPivot rows with
    | none => none
    | some (p, rest) =>
      match gaussSolve n (rest.map (elimRow p)) with
      | none => none
      | some xs =>
        some (((p.2 - dotQ (p.1.drop 1) xs) / p.1.headD 0) :: xs)

/-- The model of `math.lusolve(G, I)` (line 260). -/
def lusolve (G : Mat) (I : List ℚ) : Option (List ℚ) :=
  gaussSolve G.length (G.zip I)

/-! ## Step 5: result composition (lines 270–304) -/

/-- JavaScript object key assignment `m[k] = v`: replace the value of an
existing key in place, else append. -/
def objSet (m : List (String × ℚ)) (k : String) (v : ℚ) : List (String × ℚ) :=
  match m with
  | [] => [(k, v)]
  | (k1, v1) :: rest =>
    if k1 = k then (k1, v) :: rest else (k1, v1) :: objSet rest k v

/-- Object key lookup. -/
def objGet (m : List (String × ℚ)) (k : String) : Option ℚ :=
  match m with
  | [] => none
  | (k1, v1) :: rest => if k1 = k then some v1 else objGet rest k

/-- The voltage of a terminal's node: 0 at ground, else the solved entry
at the node's matrix index (lines 276–277). -/
def nodeVoltageAt (uf : String → String) (g : String) (ns : List String)
    (V : List ℚ) (t : String) : ℚ :=
  if uf t = g then 0
  else
    match idxOf ns (uf t) with
    | some i => V.getD i 0
    | none => 0

/-- `componentCurrents` (lines 270–290): resistors get
`(vA - vB) / value`, voltage sources get 0, every other kind gets no entry
at all. -/
def currentsOut (ecs : List CircuitComponent) (uf : String → String)
    (g : String) (ns : List String) (V : List ℚ) : List (String × ℚ) :=
  ecs.foldl
    (fun m c =>
      if c.type = CompType.resistor then
        let vA := nodeVoltageAt uf g ns V (termStr c.id 0)
        let vB := nodeVoltageAt uf g ns V (termStr c.id 1)
        objSet m c.id ((vA - vB) / c.value)
      else if c.type = CompType.voltage then objSet m c.id 0
      else m)
    []

/-- `nodeVoltages` (lines 292–301): ground first with voltage 0, then each
non-ground node with its solved entry. -/
def voltagesOut (g : String) (ns : List String) (V : List ℚ) :
    List (String × ℚ) :=
  ns.foldl
    (fun m node =>
      match idxOf ns node with
      | some i => objSet m node (V.getD i 0)
      | none => m)
    [(g, 0)]

/-- The error string of the `catch` branch around the linear solve
(lines 261–268) — the only error the solver can return. -/
def solveFailMsg : String :=
  "Failed to solve circuit. Check for invalid configurations or isolated components."

/-- The full solver `simulateCircuit(components, wires, subcircuits)`
(lines 17–305). -/
def simulateCircuit (components : List CircuitComponent) (wires : List Wire)
    (subcircuits : List SubCircuit) : SimResult :=
  if components.isEmpty then ⟨[], [], none⟩
  else
    let ecs := expandComponents components subcircuits
    let ews := expandWires components subcircuits wires
    let uf := ufFold ews
    match groundOf ecs uf with
    | none => ⟨[], [], none⟩
    | some g =>
      let ns := nonGroundNodes ecs uf g
      let s := assemble ecs uf g ns
      match lusolve s.G s.I with
      | none => ⟨[], [], some solveFailMsg⟩
      | some V => ⟨voltagesOut g ns V, currentsOut ecs uf g ns V, none⟩

/-! ## Derived notions used by the statements -/

/-- Matrix-vector product of the row-list matrix. -/
def mulVec (G : Mat) (v : List ℚ) : List ℚ :=
  G.map (fun r => dotQ r v)

/-- A square matrix with `n` unknowns is singular when some nonzero vector
is in its kernel. -/
def isSingular (G : Mat) (n : Nat) : Prop :=
  ∃ v : List ℚ, v.length = n ∧ v ≠ List.replicate n 0 ∧
    mulVec G v = List.replicate G.length 0

/-- Square shape of a row-list matrix. -/
def MatShape (G : Mat) (n : Nat) : Prop :=
  G.length = n ∧ ∀ r ∈ G, r.length = n

instance (G : Mat) (n : Nat) : Decidable (MatShape G n) := by
  unfold MatShape; infer_instance

/-- The identity row `e_i` of length `n`. -/
def unitRow (n i : Nat) : List ℚ :=
  (List.replicate n (0 : ℚ)).set i 1

/-- Square shape of an assembly state. -/
def SysShape (s : Sys) (n : Nat) : Prop :=
  MatShape s.G n ∧ s.I.length = n

instance (s : Sys) (n : Nat) : Decidable (SysShape s n) := by
  unfold SysShape; infer_instance

/-- The terminal id strings of a component list (two per component). -/
def termStrings (ecs : List CircuitComponent) : List String :=
  ecs.foldr (fun c acc => termStr c.id 0 :: termStr c.id 1 :: acc) []

/-- The endpoint terminal id strings of a wire list. -/
def wireEnds (ws : List Wire) : List String :=
  ws.foldr (fun w acc => w.fromT.str :: w.toT.str :: acc) []

/-- The kinds excluded from matrix assembly in the DC model. -/
def excludedKind (t : CompType) : Prop :=
  t = CompType.capacitor ∨ t = CompType.inductor ∨ t = CompType.diode ∨
    t = CompType.transistor ∨ t = CompType.bulb ∨ t = CompType.logicGate

instance (t : CompType) : Decidable (excludedKind t) := by
  unfold excludedKind; infer_instance

/-! ## Concrete inputs used by the witnesses and counterexamples -/

/-- A two-terminal component at the origin with no subcircuit reference. -/
def mkComp (i : String) (t : CompType) (v : ℚ) : CircuitComponent :=
  ⟨i, t, 0, 0, v, none⟩

/-- A wire between two terminals. -/
def mkWire (i a : String) (ta : Nat) (b : String) (tb : Nat) : Wire :=
  ⟨i, ⟨a, ta⟩, ⟨b, tb⟩⟩

/-- Claim C1's failing input: grounded source `v1`, floating source `v2`
(each of its terminals tied through a resistor to ground, but neither in
the ground class). -/
def floatComps : List CircuitComponent :=
  [mkComp "v1" CompType.voltage 5, mkComp "v2" CompType.voltage 3,
   mkComp "r1" CompType.resistor 100, mkComp "r2" CompType.resistor 100]

/-- Wires of claim C1's failing input. -/
def floatWires : List Wire :=
  [mkWire "w1" "v1" 1 "r1" 1, mkWire "w2" "v1" 1 "r2" 1,
   mkWire "w3" "v2" 0 "r1" 0, mkWire "w4" "v2" 1 "r2" 0]

/-- Two grounded sources constraining the same non-ground node (claim C4). -/
def conflictComps : List CircuitComponent :=
  [mkComp "v1" CompType.voltage 5, mkComp "v2" CompType.voltage 3]

/-- Wires for the conflicting-source input: both terminal-1s shorted
(ground), both terminal-0s shorted (one shared non-ground node). -/
def conflictWires : List Wire :=
  [mkWire "w1" "v1" 1 "v2" 1, mkWire "w2" "v1" 0 "v2" 0]

/-- A resistor of resistance `R` across a grounded 5 V source; the resistor
comes first so that its stamp precedes (and is overwritten by) the source's
row substitution. -/
def seriesComps (R : ℚ) : List CircuitComponent :=
  [mkComp "r1" CompType.resistor R, mkComp "v1" CompType.voltage 5]

/-- Wires of the one-resistor circuit. -/
def seriesWires : List Wire :=
  [mkWire "w1" "r1" 1 "v1" 1, mkWire "w2" "r1" 0 "v1" 0]

/-- An unconnected capacitor appended to the working one-resistor circuit
(claim C6). -/
def withCapComps : List CircuitComponent :=
  seriesComps 100 ++ [mkComp "c1" CompType.capacitor 1]

/-- A subcircuit instance whose definition id is absent from the library,
plus a resistor, with a wire from the instance to the resistor (claim C7). -/
def unresolvedComps : List CircuitComponent :=
  [{ id := "s1", type := CompType.subcircuit, x := 0, y := 0, value := 0,
     subcircuitId := some "missing" },
   mkComp "r1" CompType.resistor 100]

/-- The wire touching the dropped instance (claim C7). -/
def unresolvedWires : List Wire :=
  [mkWire "w1" "s1" 0 "r1" 0]

/-- Claim C2's witness input: a grounded source plus an unconnected
capacitor, whose two isolated nodes give two all-zero matrix rows. -/
def islandComps : List CircuitComponent :=
  [mkComp "v1" CompType.voltage 5, mkComp "c1" CompType.capacitor 1]

/-! # Theorems -/

/-! ## Generic facts about the solver's branches -/

/-- The flattening of an empty component list is empty. -/
theorem expandComponents_nil (ss : List SubCircuit) :
    expandComponents [] ss = [] := rfl

/-- Ground selection on an empty flattened list yields no ground. -/
theorem groundOf_nil (uf : String → String) : groundOf [] uf = none := rfl

/-- The solver returns either a success record (no error) or exactly the
empty record carrying the catch-branch message of the linear solve — the
only error it can produce. -/
theorem simulateCircuit_error_shape (cs : List CircuitComponent)
    (ws : List Wire) (ss : List SubCircuit) :
    (simulateCircuit cs ws ss).error = none ∨
      simulateCircuit cs ws ss = ⟨[], [], some solveFailMsg⟩ := by
  simp only [simulateCircuit]
  split
  · exact Or.inl rfl
  · split
    · exact Or.inl rfl
    · split
      · exact Or.inr rfl
      · exact Or.inl rfl

/-- C10: for every input, `simulateCircuit` returns a result record and
never throws: the embedding of the pipeline is a total function, and the
only error outcome is the catch branch around the linear solve, which
returns the error record with empty voltage and current mappings.  (The
`mathjs` calls are modelled by their mathematical contracts; exceptions
internal to that library are outside the embedding.) -/
theorem simulateCircuit_total_error_shape (cs : List CircuitComponent)
    (ws : List Wire) (ss : List SubCircuit) :
    (simulateCircuit cs ws ss).error = none ∨
      simulateCircuit cs ws ss =
        { nodeVoltages := [], componentCurrents := [],
          error := some solveFailMsg } :=
  simulateCircuit_error_shape cs ws ss

/-- C8: the empty circuit solves to the empty success record, whatever the
wire list and subcircuit library are. -/
theorem empty_circuit_success (ws : List Wire) (ss : List SubCircuit) :
    simulateCircuit [] ws ss =
      { nodeVoltages := [], componentCurrents := [], error := none } := rfl

/-- C1: evaluating the solver on `floatComps`/`floatWires`, where source
`v2` has neither terminal in the ground class (first two conjuncts), the
code returns a numeric success record and no error: the
floating-source error object built at simulator.ts lines 233–237 is
`return`ed from inside a `forEach` callback and therefore discarded. -/
theorem floating_source_returns_numeric_result :
    ufFold (expandWires floatComps [] floatWires) (termStr "v2" 0) ≠ "v1_1" ∧
    ufFold (expandWires floatComps [] floatWires) (termStr "v2" 1) ≠ "v1_1" ∧
    groundOf (expandComponents floatComps [])
      (ufFold (expandWires floatComps [] floatWires)) = some "v1_1" ∧
    simulateCircuit floatComps floatWires [] =
      { nodeVoltages := [("v1_1", 0), ("v1_0", 5), ("v2_0", 0), ("v2_1", 0)],
        componentCurrents := [("v1", 0), ("v2", 0), ("r1", 0), ("r2", 0)],
        error := none } := by
  refine ⟨by decide, by decide, by decide, ?_⟩
  with_unfolding_all rfl

/-- C4 counterexample: two grounded sources (5 V and 3 V) constraining the
same non-ground node do not fail the solve; the later source's row
substitution silently wins and the node solves to 3 V. -/
theorem conflicting_sources_no_error :
    simulateCircuit conflictComps conflictWires [] =
      { nodeVoltages := [("v1_1", 0), ("v1_0", 3)],
        componentCurrents := [("v1", 0), ("v2", 0)],
        error := none } := by with_unfolding_all rfl

/-- C5 counterexample: a resistor of −100 Ω across a grounded 5 V source
is not rejected: the solve succeeds, stamping the conductance 1/value and
reporting the current 5/(−100) = −1/20 A. -/
theorem negative_resistor_no_error :
    simulateCircuit (seriesComps (-100)) seriesWires [] =
      { nodeVoltages := [("r1_1", 0), ("r1_0", 5)],
        componentCurrents := [("r1", -(1/20)), ("v1", 0)],
        error := none } := by with_unfolding_all rfl

/-- C6 counterexample: appending an unconnected capacitor to a working
circuit changes the solve outcome from numeric success to the solve-failure
error (its two isolated terminals contribute all-zero matrix rows), so an
excluded-kind component's presence does not leave the solve unchanged. -/
theorem excluded_component_changes_outcome :
    simulateCircuit (seriesComps 100) seriesWires [] =
      { nodeVoltages := [("r1_1", 0), ("r1_0", 5)],
        componentCurrents := [("r1", 1/20), ("v1", 0)],
        error := none } ∧
    simulateCircuit withCapComps seriesWires [] =
      { nodeVoltages := [], componentCurrents := [],
        error := some solveFailMsg } := by
  refine ⟨by with_unfolding_all rfl, by with_unfolding_all rfl⟩

/-- C7 counterexample: with an instance referencing a missing definition
and a wire from that instance to a resistor, the solve keeps the wire (the
dropped instance's terminal id `s1_0` even becomes a node id in the
result) and records no error at all. -/
theorem unresolved_subcircuit_no_error :
    simulateCircuit unresolvedComps unresolvedWires [] =
      { nodeVoltages := [("s1_0", 0), ("r1_1", 0)],
        componentCurrents := [("r1", 0)],
        error := none } := by with_unfolding_all rfl

/-! ## Association-list and branch-form lemmas -/

/-- Setting one key leaves lookups of other keys unchanged. -/
theorem objGet_objSet_ne (m : List (String × ℚ)) (k key : String) (v : ℚ)
    (h : k ≠ key) : objGet (objSet m k v) key = objGet m key := by
  induction m with
  | nil => simp [objSet, objGet, h]
  | cons p rest ih =>
    obtain ⟨k1, v1⟩ := p
    by_cases h1 : k1 = k
    · subst h1
      simp [objSet, objGet, h]
    · simp only [objSet, if_neg h1]
      by_cases h2 : k1 = key
      · simp [objGet, h2]
      · simp [objGet, h2, ih]

/-- The voltage fold never touches the ground entry when every iterated
node differs from ground. -/
theorem objGet_voltFold (ns l : List String) (V : List ℚ) (g : String)
    (m : List (String × ℚ)) (h : ∀ n ∈ l, n ≠ g) (hm : objGet m g = some 0) :
    objGet
      (l.foldl
        (fun m node =>
          match idxOf ns node with
          | some i => objSet m node (V.getD i 0)
          | none => m)
        m) g = some 0 := by
  induction l generalizing m with
  | nil => simpa using hm
  | cons n rest ih =>
    have hn : n ≠ g := h n (by simp)
    have hrest : ∀ x ∈ rest, x ≠ g := fun x hx => h x (by simp [hx])
    simp only [List.foldl_cons]
    apply ih _ hrest
    cases hidx : idxOf ns n with
    | none => simpa using hm
    | some i => simpa [objGet_objSet_ne _ _ _ _ hn] using hm

/-- Ground's entry in the composed voltage map is exactly 0 as long as no
listed node equals ground. -/
theorem objGet_voltagesOut (g : String) (ns : List String) (V : List ℚ)
    (h : ∀ n ∈ ns, n ≠ g) : objGet (voltagesOut g ns V) g = some 0 := by
  unfold voltagesOut
  exact objGet_voltFold ns ns V g [(g, 0)] h (by simp [objGet])

/-- Every node in the non-ground list differs from ground. -/
theorem nonGroundNodes_ne (ecs : List CircuitComponent)
    (uf : String → String) (g : String) :
    ∀ n ∈ nonGroundNodes ecs uf g, n ≠ g := by
  intro n hn
  have := List.mem_filter.mp hn
  simpa using this.2

/-- Ground is never in the non-ground node list, hence never indexed. -/
theorem ground_not_mem_nonGroundNodes (ecs : List CircuitComponent)
    (uf : String → String) (g : String) :
    g ∉ nonGroundNodes ecs uf g := fun h =>
  (nonGroundNodes_ne ecs uf g g h) rfl

/-- The solver's success branch, in closed form. -/
theorem simulateCircuit_success_form (cs : List CircuitComponent)
    (ws : List Wire) (ss : List SubCircuit) (g : String) (V : List ℚ)
    (hcs : cs.isEmpty = false)
    (hg : groundOf (expandComponents cs ss) (ufFold (expandWires cs ss ws)) =
      some g)
    (hl : lusolve
        (assemble (expandComponents cs ss) (ufFold (expandWires cs ss ws)) g
          (nonGroundNodes (expandComponents cs ss)
            (ufFold (expandWires cs ss ws)) g)).G
        (assemble (expandComponents cs ss) (ufFold (expandWires cs ss ws)) g
          (nonGroundNodes (expandComponents cs ss)
            (ufFold (expandWires cs ss ws)) g)).I = some V) :
    simulateCircuit cs ws ss =
      { nodeVoltages :=
          voltagesOut g
            (nonGroundNodes (expandComponents cs ss)
              (ufFold (expandWires cs ss ws)) g) V,
        componentCurrents :=
          currentsOut (expandComponents cs ss)
            (ufFold (expandWires cs ss ws)) g
            (nonGroundNodes (expandComponents cs ss)
              (ufFold (expandWires cs ss ws)) g) V,
        error := none } := by
  simp only [simulateCircuit, hcs, Bool.false_eq_true, if_false, hg, hl]

/-- The solver's failure branch, in closed form. -/
theorem simulateCircuit_fail_form (cs : List CircuitComponent)
    (ws : List Wire) (ss : List SubCircuit) (g : String)
    (hcs : cs.isEmpty = false)
    (hg : groundOf (expandComponents cs ss) (ufFold (expandWires cs ss ws)) =
      some g)
    (hl : lusolve
        (assemble (expandComponents cs ss) (ufFold (expandWires cs ss ws)) g
          (nonGroundNodes (expandComponents cs ss)
            (ufFold (expandWires cs ss ws)) g)).G
        (assemble (expandComponents cs ss) (ufFold (expandWires cs ss ws)) g
          (nonGroundNodes (expandComponents cs ss)
            (ufFold (expandWires cs ss ws)) g)).I = none) :
    simulateCircuit cs ws ss =
      { nodeVoltages := [], componentCurrents := [],
        error := some solveFailMsg } := by
  simp only [simulateCircuit, hcs, Bool.false_eq_true, if_false, hg, hl]

/-- A chosen ground forces a non-empty component list. -/
theorem isEmpty_false_of_ground (cs : List CircuitComponent)
    (ws : List Wire) (ss : List SubCircuit) (g : String)
    (hg : groundOf (expandComponents cs ss) (ufFold (expandWires cs ss ws)) =
      some g) : cs.isEmpty = false := by
  cases cs with
  | nil => simp [expandComponents, groundOf] at hg
  | cons a l => rfl

/-- C9: whenever a ground node was chosen and the solve succeeded, the
ground node id is a key of `nodeVoltages` with value exactly 0, and ground
is not in the non-ground node list, so it is never assigned a matrix index
(indices are positions in that list). -/
theorem ground_zero_and_unindexed (cs : List CircuitComponent)
    (ws : List Wire) (ss : List SubCircuit) (g : String)
    (hg : groundOf (expandComponents cs ss) (ufFold (expandWires cs ss ws)) =
      some g)
    (hok : (simulateCircuit cs ws ss).error = none) :
    objGet (simulateCircuit cs ws ss).nodeVoltages g = some 0 ∧
      g ∉ nonGroundNodes (expandComponents cs ss)
        (ufFold (expandWires cs ss ws)) g := by
  have hcs := isEmpty_false_of_ground cs ws ss g hg
  refine ⟨?_, ground_not_mem_nonGroundNodes _ _ _⟩
  cases hl : lusolve
      (assemble (expandComponents cs ss) (ufFold (expandWires cs ss ws)) g
        (nonGroundNodes (expandComponents cs ss)
          (ufFold (expandWires cs ss ws)) g)).G
      (assemble (expandComponents cs ss) (ufFold (expandWires cs ss ws)) g
        (nonGroundNodes (expandComponents cs ss)
          (ufFold (expandWires cs ss ws)) g)).I with
  | none =>
    rw [simulateCircuit_fail_form cs ws ss g hcs hg hl] at hok
    simp at hok
  | some V =>
    rw [simulateCircuit_success_form cs ws ss g V hcs hg hl]
    exact objGet_voltagesOut g _ V (nonGroundNodes_ne _ _ _)

/-- Witness for C9 at the one-resistor circuit, whose ground node is
`r1_1`. -/
theorem ground_zero_and_unindexed_witness :
    objGet (simulateCircuit (seriesComps 100) seriesWires []).nodeVoltages
        "r1_1" = some 0 ∧
      "r1_1" ∉ nonGroundNodes (expandComponents (seriesComps 100) [])
        (ufFold (expandWires (seriesComps 100) [] seriesWires)) "r1_1" :=
  ground_zero_and_unindexed (seriesComps 100) seriesWires [] "r1_1"
    (by decide) (by with_unfolding_all rfl)

/-- The first element satisfying a predicate, characterized by a split of
the list. -/
theorem find?_first_split {α : Type} (p : α → Bool) (pre post : List α)
    (v : α) (hv : p v = true) (hpre : ∀ c ∈ pre, p c = false) :
    (pre ++ v :: post).find? p = some v := by
  induction pre with
  | nil => simp [List.find?_cons_of_pos, hv]
  | cons c rest ih =>
    have hc : p c = false := hpre c (by simp)
    rw [List.cons_append, List.find?_cons_of_neg _ (by simp [hc])]
    exact ih fun x hx => hpre x (by simp [hx])

/-- C3: the ground selection policy on the flattened component list.
If some voltage source exists, ground is the union-find class (identified
by its representative) of terminal 1 of the first voltage source in order;
otherwise ground is the class of terminal 0 of the first component. -/
theorem ground_selection_policy (cs : List CircuitComponent)
    (ws : List Wire) (ss : List SubCircuit) :
    (∀ (pre post : List CircuitComponent) (v : CircuitComponent),
      expandComponents cs ss = pre ++ v :: post →
      v.type = CompType.voltage →
      (∀ c ∈ pre, c.type ≠ CompType.voltage) →
      groundOf (expandComponents cs ss) (ufFold (expandWires cs ss ws)) =
        some (ufFold (expandWires cs ss ws) (termStr v.id 1))) ∧
    (∀ (c0 : CircuitComponent) (rest : List CircuitComponent),
      expandComponents cs ss = c0 :: rest →
      (∀ c ∈ expandComponents cs ss, c.type ≠ CompType.voltage) →
      groundOf (expandComponents cs ss) (ufFold (expandWires cs ss ws)) =
        some (ufFold (expandWires cs ss ws) (termStr c0.id 0))) := by
  constructor
  · intro pre post v hsplit hv hpre
    have hfind :
        (expandComponents cs ss).find?
          (fun c => decide (c.type = CompType.voltage)) = some v := by
      rw [hsplit]
      exact find?_first_split _ pre post v (by simp [hv])
        (fun c hc => by simp [hpre c hc])
    simp only [groundOf, hfind]
  · intro c0 rest hsplit hnone
    have hfind :
        (c0 :: rest).find?
          (fun c => decide (c.type = CompType.voltage)) = none := by
      rw [← hsplit, List.find?_eq_none]
      intro x hx
      simp [hnone x hx]
    simp only [groundOf, hsplit, hfind]

/-- Witness for C3: in the one-resistor circuit `[r1, v1]`, the first (and
only) voltage source is `v1`, and ground is the class of its terminal 1. -/
theorem ground_selection_policy_witness :
    groundOf (expandComponents (seriesComps 100) [])
        (ufFold (expandWires (seriesComps 100) [] seriesWires)) =
      some (ufFold (expandWires (seriesComps 100) [] seriesWires)
        (termStr "v1" 1)) :=
  (ground_selection_policy (seriesComps 100) seriesWires []).1
    [mkComp "r1" CompType.resistor 100] [] (mkComp "v1" CompType.voltage 5)
    (by with_unfolding_all rfl) rfl
    (by intro c hc; simp at hc; subst hc; simp [mkComp])

/-! ## Exact Gaussian elimination: a successful solve forces a trivial
kernel, so a singular matrix makes the solve fail -/

/-- Dot product against the empty vector. -/
theorem dotQ_nil_right (xs : List ℚ) : dotQ xs [] = 0 := by
  cases xs <;> rfl

/-- Dot product against a zero vector. -/
theorem dotQ_replicate_zero (xs : List ℚ) (n : Nat) :
    dotQ xs (List.replicate n 0) = 0 := by
  induction xs generalizing n with
  | nil => rfl
  | cons a as ih =>
    cases n with
    | zero => rfl
    | succ m => simp [List.replicate_succ, dotQ, ih]

/-- Dot products distribute over the row elimination combination. -/
theorem dotQ_zipWith_sub (f : ℚ) (xs ys vs : List ℚ)
    (h : xs.length = ys.length) :
    dotQ (List.zipWith (fun a b => a - f * b) xs ys) vs =
      dotQ xs vs - f * dotQ ys vs := by
  induction xs generalizing ys vs with
  | nil =>
    have hy : ys = [] := by
      cases ys with
      | nil => rfl
      | cons b bs => simp at h
    subst hy
    simp [dotQ]
  | cons a as ih =>
    cases ys with
    | nil => simp at h
    | cons b bs =>
      cases vs with
      | nil => simp [dotQ_nil_right]
      | cons v vs2 =>
        have hlen : as.length = bs.length := by simpa using h
        simp only [List.zipWith_cons_cons, dotQ, ih bs vs2 hlen]
        ring

/-- What a successful pivot selection guarantees: the pivot's leading
coefficient is nonzero, the pivot came from the row list, and so did every
remaining row. -/
theorem selectPivot_spec (rows rest : List (List ℚ × ℚ)) (p : List ℚ × ℚ)
    (h : selectPivot rows = some (p, rest)) :
    p.1.headD 0 ≠ 0 ∧ p ∈ rows ∧ ∀ r ∈ rest, r ∈ rows := by
  induction rows generalizing rest with
  | nil => simp [selectPivot] at h
  | cons r rs ih =>
    rw [selectPivot] at h
    by_cases h0 : r.1.headD 0 ≠ 0
    · rw [if_pos h0] at h
      injection h with h1
      injection h1 with h2 h3
      subst h2
      subst h3
      exact ⟨h0, by simp, fun x hx => by simp [hx]⟩
    · rw [if_neg h0] at h
      cases hrec : selectPivot rs with
      | none => rw [hrec] at h; cases h
      | some pr =>
        obtain ⟨p1, rest1⟩ := pr
        rw [hrec] at h
        injection h with h1
        injection h1 with h2 h3
        subst h2
        subst h3
        obtain ⟨hp0, hpmem, hrest⟩ := ih rest1 hrec
        refine ⟨hp0, by simp [hpmem], ?_⟩
        intro x hx
        rcases List.mem_cons.mp hx with rfl | hx1
        · simp
        · simp [hrest x hx1]

/-- Rows produced by eliminating the leading column have one fewer
coefficient. -/
theorem elimRow_length (p r : List ℚ × ℚ) (n : Nat)
    (hp : p.1.length = n + 1) (hr : r.1.length = n + 1) :
    (elimRow p r).1.length = n := by
  simp [elimRow, List.length_zipWith, List.length_drop, hp, hr]

/-- If exact elimination with back substitution succeeds, the homogeneous
system admits only the zero solution: every vector annihilated by all the
rows is the zero vector. -/
theorem gauss_some_kernel_trivial :
    ∀ (n : Nat) (rows : List (List ℚ × ℚ)) (xs : List ℚ),
      (∀ r ∈ rows, r.1.length = n) → gaussSolve n rows = some xs →
      ∀ v : List ℚ, v.length = n → (∀ r ∈ rows, dotQ r.1 v = 0) →
        v = List.replicate n 0 := by
  intro n
  induction n with
  | zero =>
    intro rows xs _ _ v hv _
    simpa using List.length_eq_zero.mp hv
  | succ m ih =>
    intro rows xs hlen hsol v hv hker
    rw [gaussSolve] at hsol
    cases hsel : selectPivot rows with
    | none =>
      simp only [hsel] at hsol
      exact Option.noConfusion hsol
    | some pr =>
      obtain ⟨p, rest⟩ := pr
      simp only [hsel] at hsol
      obtain ⟨hp0, hpmem, hrestmem⟩ := selectPivot_spec rows rest p hsel
      cases hrec : gaussSolve m (rest.map (elimRow p)) with
      | none =>
        simp only [hrec] at hsol
        exact Option.noConfusion hsol
      | some xs1 =>
        -- decompose the pivot row and the candidate kernel vector
        have hplen : p.1.length = m + 1 := hlen p hpmem
        obtain ⟨c, cs, hp1⟩ : ∃ c cs, p.1 = c :: cs := by
          cases hpc : p.1 with
          | nil => rw [hpc] at hplen; simp at hplen
          | cons c cs => exact ⟨c, cs, rfl⟩
        obtain ⟨v0, v1, hv1⟩ : ∃ v0 v1, v = v0 :: v1 := by
          cases hvc : v with
          | nil => rw [hvc] at hv; simp at hv
          | cons v0 v1 => exact ⟨v0, v1, rfl⟩
        have hcs : cs.length = m := by
          have h1 := hplen; rw [hp1] at h1; simpa using h1
        have hv1len : v1.length = m := by
          have h1 := hv; rw [hv1] at h1; simpa using h1
        have hc : c ≠ 0 := by rwa [hp1] at hp0
        have hpdot : c * v0 + dotQ cs v1 = 0 := by
          have h1 := hker p hpmem
          rwa [hp1, hv1, dotQ] at h1
        -- the eliminated rows still annihilate the tail of v
        have hker1 : ∀ r ∈ rest.map (elimRow p), dotQ r.1 v1 = 0 := by
          intro r hr
          obtain ⟨r0, hr0mem, rfl⟩ := List.mem_map.mp hr
          have hr0len : r0.1.length = m + 1 := hlen r0 (hrestmem r0 hr0mem)
          obtain ⟨d, ds, hd1⟩ : ∃ d ds, r0.1 = d :: ds := by
            cases hrc : r0.1 with
            | nil => rw [hrc] at hr0len; simp at hr0len
            | cons d ds => exact ⟨d, ds, rfl⟩
          have hds : ds.length = m := by
            have h1 := hr0len; rw [hd1] at h1; simpa using h1
          have hrdot : d * v0 + dotQ ds v1 = 0 := by
            have h1 := hker r0 (hrestmem r0 hr0mem)
            rwa [hd1, hv1, dotQ] at h1
          show dotQ (elimRow p r0).1 v1 = 0
          unfold elimRow
          rw [hp1, hd1]
          simp only [List.headD_cons, List.drop_one, List.tail_cons]
          rw [dotQ_zipWith_sub (d / c) ds cs v1 (by rw [hds, hcs])]
          have h1 : dotQ ds v1 = -(d * v0) := by linarith
          have h2 : dotQ cs v1 = -(c * v0) := by linarith
          rw [h1, h2]
          field_simp
          ring
        -- lengths of the eliminated rows
        have hlen1 : ∀ r ∈ rest.map (elimRow p), r.1.length = m := by
          intro r hr
          obtain ⟨r0, hr0mem, rfl⟩ := List.mem_map.mp hr
          exact elimRow_length p r0 m hplen (hlen r0 (hrestmem r0 hr0mem))
        have hv1zero : v1 = List.replicate m 0 :=
          ih (rest.map (elimRow p)) xs1 hlen1 hrec v1 hv1len hker1
        have hv0 : v0 = 0 := by
          rw [hv1zero, dotQ_replicate_zero] at hpdot
          have h1 : c * v0 = 0 := by linarith
          rcases mul_eq_zero.mp h1 with h | h
          · exact absurd h hc
          · exact h
        rw [hv1, hv0, hv1zero, List.replicate_succ]

/-! ## Shape of the assembled system -/

/-- Entry update preserves square shape. -/
theorem matShape_matSet (G : Mat) (n i j : Nat) (v : ℚ) (h : MatShape G n) :
    MatShape (matSet G i j v) n := by
  obtain ⟨hlen, hrow⟩ := h
  by_cases hi : i < G.length
  · refine ⟨by simp [matSet, hlen], ?_⟩
    intro r hr
    rcases List.mem_or_eq_of_mem_set hr with h1 | h1
    · exact hrow r h1
    · subst h1
      rw [List.length_set]
      have hg : G.getD i [] ∈ G := by
        rw [List.getD_eq_getElem?_getD, List.getElem?_eq_getElem hi]
        exact List.getElem_mem hi
      exact hrow _ hg
  · unfold matSet
    rw [List.set_eq_of_length_le (Nat.le_of_not_lt hi)]
    exact ⟨hlen, hrow⟩

/-- The row-zeroing loop preserves square shape. -/
theorem matShape_rangeFold (l : List Nat) (G : Mat) (n i : Nat)
    (h : MatShape G n) :
    MatShape (l.foldl (fun A c => matSet A i c 0) G) n := by
  induction l generalizing G with
  | nil => exact h
  | cons a rest ih => exact ih _ (matShape_matSet G n i a 0 h)

/-- Row substitution preserves the shape of the assembly state. -/
theorem sysShape_voltageRowSub (s : Sys) (n : Nat) (target g : String)
    (ns : List String) (volt : ℚ) (h : SysShape s n) :
    SysShape (voltageRowSub s n target g ns volt) n := by
  unfold voltageRowSub
  split
  · exact h
  · cases hidx : idxOf ns target with
    | none => exact h
    | some i =>
      refine ⟨matShape_matSet _ n i i 1
        (matShape_rangeFold (List.range n) s.G n i h.1), ?_⟩
      rw [List.length_set]
      exact h.2

/-- Each assembly step preserves the shape of the assembly state. -/
theorem sysShape_assembleStep (uf : String → String) (g : String)
    (ns : List String) (n : Nat) (s : Sys) (c : CircuitComponent)
    (h : SysShape s n) : SysShape (assembleStep uf g ns n s c) n := by
  have hG := h.1
  have hI := h.2
  simp only [assembleStep]
  repeat' split
  all_goals
    first
      | exact h
      | exact sysShape_voltageRowSub _ _ _ _ _ _ h
      | exact ⟨matShape_matSet _ _ _ _ _ hG, hI⟩
      | exact ⟨matShape_matSet _ _ _ _ _ (matShape_matSet _ _ _ _ _
          (matShape_matSet _ _ _ _ _ (matShape_matSet _ _ _ _ _ hG))), hI⟩

/-- The assembled system is square of size the non-ground node count. -/
theorem sysShape_assemble (ecs : List CircuitComponent)
    (uf : String → String) (g : String) (ns : List String) :
    SysShape (assemble ecs uf g ns) ns.length := by
  show SysShape
    (ecs.foldl (assembleStep uf g ns ns.length)
      ⟨List.replicate ns.length (List.replicate ns.length 0),
        List.replicate ns.length 0⟩) ns.length
  have hstart : SysShape
      ⟨List.replicate ns.length (List.replicate ns.length 0),
        List.replicate ns.length 0⟩ ns.length := by
    refine ⟨⟨by simp, ?_⟩, by simp⟩
    intro r hr
    simp [List.eq_of_mem_replicate hr]
  generalize hstart0 :
    (⟨List.replicate ns.length (List.replicate ns.length 0),
      List.replicate ns.length 0⟩ : Sys) = s0 at hstart ⊢
  clear hstart0
  induction ecs generalizing s0 with
  | nil => exact hstart
  | cons c rest ih =>
    exact ih _ (sysShape_assembleStep uf g ns ns.length s0 c hstart)

/-- A zero product vector annihilates every row. -/
theorem mulVec_zero_forall (G : Mat) (v : List ℚ)
    (h : mulVec G v = List.replicate G.length 0) :
    ∀ r ∈ G, dotQ r v = 0 := by
  induction G with
  | nil => intro r hr; simp at hr
  | cons r0 rest ih =>
    intro r hr
    rw [mulVec, List.map_cons, List.length_cons, List.replicate_succ] at h
    injection h with h1 h2
    rcases List.mem_cons.mp hr with rfl | hmem
    · exact h1
    · exact ih h2 r hmem

/-- C2: if the assembled conductance matrix is singular (some nonzero
vector is in its kernel), the solve fails with the catch-branch error —
the code's realization of `UnsolvableNetwork` — and returns empty voltage
and current mappings, never numeric values (in the exact-rational model
there are no infinities or NaNs to return at all). -/
theorem singular_network_unsolvable (cs : List CircuitComponent)
    (ws : List Wire) (ss : List SubCircuit) (g : String)
    (hg : groundOf (expandComponents cs ss) (ufFold (expandWires cs ss ws)) =
      some g)
    (hsing : isSingular
      (assemble (expandComponents cs ss) (ufFold (expandWires cs ss ws)) g
        (nonGroundNodes (expandComponents cs ss)
          (ufFold (expandWires cs ss ws)) g)).G
      (nonGroundNodes (expandComponents cs ss)
        (ufFold (expandWires cs ss ws)) g).length) :
    simulateCircuit cs ws ss =
      { nodeVoltages := [], componentCurrents := [],
        error := some solveFailMsg } := by
  have hcs := isEmpty_false_of_ground cs ws ss g hg
  obtain ⟨hGshape, hIlen⟩ :=
    sysShape_assemble (expandComponents cs ss)
      (ufFold (expandWires cs ss ws)) g
      (nonGroundNodes (expandComponents cs ss)
        (ufFold (expandWires cs ss ws)) g)
  obtain ⟨v, hvlen, hvne, hvker⟩ := hsing
  have hnone : lusolve
      (assemble (expandComponents cs ss) (ufFold (expandWires cs ss ws)) g
        (nonGroundNodes (expandComponents cs ss)
          (ufFold (expandWires cs ss ws)) g)).G
      (assemble (expandComponents cs ss) (ufFold (expandWires cs ss ws)) g
        (nonGroundNodes (expandComponents cs ss)
          (ufFold (expandWires cs ss ws)) g)).I = none := by
    cases hl : lusolve
        (assemble (expandComponents cs ss) (ufFold (expandWires cs ss ws)) g
          (nonGroundNodes (expandComponents cs ss)
            (ufFold (expandWires cs ss ws)) g)).G
        (assemble (expandComponents cs ss) (ufFold (expandWires cs ss ws)) g
          (nonGroundNodes (expandComponents cs ss)
            (ufFold (expandWires cs ss ws)) g)).I with
    | none => rfl
    | some xs =>
      exfalso
      unfold lusolve at hl
      have hrows : ∀ r ∈
          ((assemble (expandComponents cs ss)
              (ufFold (expandWires cs ss ws)) g
              (nonGroundNodes (expandComponents cs ss)
                (ufFold (expandWires cs ss ws)) g)).G.zip
            (assemble (expandComponents cs ss)
              (ufFold (expandWires cs ss ws)) g
              (nonGroundNodes (expandComponents cs ss)
                (ufFold (expandWires cs ss ws)) g)).I),
          r.1.length =
            (assemble (expandComponents cs ss)
              (ufFold (expandWires cs ss ws)) g
              (nonGroundNodes (expandComponents cs ss)
                (ufFold (expandWires cs ss ws)) g)).G.length := by
        intro r hr
        obtain ⟨r1, r2⟩ := r
        obtain ⟨hm1, _⟩ := List.of_mem_zip hr
        rw [hGshape.1]
        exact hGshape.2 r1 hm1
      have hker : ∀ r ∈
          ((assemble (expandComponents cs ss)
              (ufFold (expandWires cs ss ws)) g
              (nonGroundNodes (expandComponents cs ss)
                (ufFold (expandWires cs ss ws)) g)).G.zip
            (assemble (expandComponents cs ss)
              (ufFold (expandWires cs ss ws)) g
              (nonGroundNodes (expandComponents cs ss)
                (ufFold (expandWires cs ss ws)) g)).I),
          dotQ r.1 v = 0 := by
        intro r hr
        obtain ⟨r1, r2⟩ := r
        obtain ⟨hm1, _⟩ := List.of_mem_zip hr
        exact mulVec_zero_forall _ v hvker r1 hm1
      have hzero := gauss_some_kernel_trivial _ _ xs hrows hl v
        (by rw [hGshape.1]; exact hvlen) hker
      rw [hGshape.1] at hzero
      exact hvne hzero
  exact simulateCircuit_fail_form cs ws ss g hcs hg hnone

/-- Witness for C2: the source-plus-unconnected-capacitor circuit has the
assembled matrix `[[1,0,0],[0,0,0],[0,0,0]]`; the vector `[0,1,0]` shows
it singular, and the solve indeed fails with the catch-branch error. -/
theorem singular_network_unsolvable_witness :
    simulateCircuit islandComps [] [] =
      { nodeVoltages := [], componentCurrents := [],
        error := some solveFailMsg } :=
  singular_network_unsolvable islandComps [] [] "v1_1" (by decide)
    ⟨[0, 1, 0], by with_unfolding_all rfl,
      by with_unfolding_all decide, by with_unfolding_all rfl⟩

/-! ## Row substitution overwrites unconditionally (no conflict check) -/

/-- Reading another row after an entry update. -/
theorem matSet_getD_other (G : Mat) (i j k : Nat) (v : ℚ) (hk : i ≠ k) :
    (matSet G i j v).getD k [] = G.getD k [] := by
  unfold matSet
  simp [List.getD_eq_getElem?_getD, List.getElem?_set_ne hk]

/-- Reading the updated row after an entry update. -/
theorem matSet_getD_same (G : Mat) (i j : Nat) (v : ℚ) (hi : i < G.length) :
    (matSet G i j v).getD i [] = (G.getD i []).set j v := by
  unfold matSet
  rw [List.getD_eq_getElem?_getD, List.getElem?_set_self (by simpa using hi)]
  rfl

/-- The length of a matrix is unchanged by entry updates. -/
theorem matSet_length (G : Mat) (i j : Nat) (v : ℚ) :
    (matSet G i j v).length = G.length := by
  simp [matSet]

/-- The zeroing loop acts on row `i` like the corresponding fold on that
row alone. -/
theorem rangeFold_getD (l : List Nat) (G : Mat) (i : Nat)
    (hi : i < G.length) :
    (l.foldl (fun A c => matSet A i c 0) G).getD i [] =
      l.foldl (fun r c => r.set c 0) (G.getD i []) := by
  induction l generalizing G with
  | nil => rfl
  | cons a rest ih =>
    rw [List.foldl_cons, List.foldl_cons,
      ih (matSet G i a 0) (by rw [matSet_length]; exact hi),
      matSet_getD_same G i a 0 hi]

/-- Setting every index of a row to zero yields the zero row. -/
theorem foldl_set_range_zero (n : Nat) :
    ∀ r : List ℚ, r.length = n →
      (List.range n).foldl (fun s c => s.set c 0) r = List.replicate n 0 := by
  induction n with
  | zero =>
    intro r h
    rw [List.length_eq_zero.mp h]
    rfl
  | succ m ih =>
    intro r h
    obtain ⟨a, r1, rfl⟩ : ∃ a r1, r = a :: r1 := by
      cases r with
      | nil => simp at h
      | cons a r1 => exact ⟨a, r1, rfl⟩
    have hr1 : r1.length = m := by simpa using h
    have hshift : ∀ (l : List Nat) (x : ℚ) (r2 : List ℚ),
        (l.map Nat.succ).foldl (fun s c => s.set c 0) (x :: r2) =
          x :: l.foldl (fun s c => s.set c 0) r2 := by
      intro l
      induction l with
      | nil => intro x r2; rfl
      | cons b bs ihb =>
        intro x r2
        rw [List.map_cons, List.foldl_cons, List.foldl_cons,
          List.set_cons_succ, ihb]
    rw [List.range_succ_eq_map, List.foldl_cons, List.set_cons_zero,
      hshift, ih r1 hr1, List.replicate_succ]

/-- Row substitution replaces the target row by the unit row and the
injection entry by the source voltage, irrespective of the previous
contents of the assembly state. -/
theorem voltageRowSub_overwrites (s : Sys) (n : Nat) (target g : String)
    (ns : List String) (volt : ℚ) (i : Nat) (hshape : MatShape s.G n)
    (ht : target ≠ g) (hidx : idxOf ns target = some i) (hi : i < n) :
    (voltageRowSub s n target g ns volt).G.getD i [] = unitRow n i ∧
      (voltageRowSub s n target g ns volt).I = s.I.set i volt := by
  unfold voltageRowSub
  rw [if_neg ht, hidx]
  have hilen : i < s.G.length := by rw [hshape.1]; exact hi
  have hfoldlen :
      ((List.range n).foldl (fun A c => matSet A i c 0) s.G).length = n :=
    (matShape_rangeFold (List.range n) s.G n i hshape).1
  have hrowlen : (s.G.getD i []).length = n := by
    have hg : s.G.getD i [] ∈ s.G := by
      rw [List.getD_eq_getElem?_getD, List.getElem?_eq_getElem hilen]
      exact List.getElem_mem hilen
    exact hshape.2 _ hg
  constructor
  · rw [matSet_getD_same _ i i 1 (by rw [hfoldlen]; exact hi),
      rangeFold_getD (List.range n) s.G i hilen,
      foldl_set_range_zero n _ hrowlen]
    rfl
  · rfl

/-- C4 (amended): processing a grounded voltage source performs its row
substitution unconditionally — whatever an earlier source (or stamp) left
in the target row and injection entry, the row becomes the unit row and
the entry becomes this source's voltage.  There is no conflict detection,
so of two sources constraining the same node, the one processed later
determines the constraint. -/
theorem voltage_source_overwrites_unconditionally (uf : String → String)
    (g : String) (ns : List String) (n : Nat) (s : Sys)
    (c : CircuitComponent) (i : Nat)
    (hc : c.type = CompType.voltage)
    (hN : uf (termStr c.id 1) = g)
    (hP : uf (termStr c.id 0) ≠ g)
    (hidx : idxOf ns (uf (termStr c.id 0)) = some i)
    (hshape : MatShape s.G n) (hi : i < n) :
    (assembleStep uf g ns n s c).G.getD i [] = unitRow n i ∧
      (assembleStep uf g ns n s c).I = s.I.set i c.value := by
  have hres : c.type ≠ CompType.resistor := by rw [hc]; intro h; cases h
  simp only [assembleStep, if_neg hres, if_pos hc, if_neg hP, if_pos hN]
  exact voltageRowSub_overwrites s n (uf (termStr c.id 0)) g ns c.value i
    hshape hP hidx hi

/-- Witness for the amended C4: stepping the 3 V source `v2` over an
assembly state whose row was already fixed (by the earlier 5 V source) to
`[1]` with injection `[5]` replaces the injection by `[3]` and the row by
the unit row again. -/
theorem voltage_source_overwrites_unconditionally_witness :
    (assembleStep (ufFold conflictWires) "v1_1" ["v1_0"] 1 ⟨[[1]], [5]⟩
        (mkComp "v2" CompType.voltage 3)).G.getD 0 [] = unitRow 1 0 ∧
      (assembleStep (ufFold conflictWires) "v1_1" ["v1_0"] 1 ⟨[[1]], [5]⟩
        (mkComp "v2" CompType.voltage 3)).I = [5].set 0 3 :=
  voltage_source_overwrites_unconditionally (ufFold conflictWires) "v1_1"
    ["v1_0"] 1 ⟨[[1]], [5]⟩ (mkComp "v2" CompType.voltage 3) 0 rfl
    (by decide) (by decide) (by decide) (by with_unfolding_all decide)
    (by decide)

/-- C5 (amended): resistor values are not validated.  For every negative
resistance `R`, the one-resistor circuit is solved like any other: the
conductance `1/R` is stamped (and here overwritten by the source row), the
solve succeeds with the source node at 5 V, and the resistor current is
reported as `5/R`.  No `InvalidComponentValue` error exists anywhere in
the solver. -/
theorem resistor_value_not_validated (R : ℚ) (_hR : R < 0) :
    simulateCircuit (seriesComps R) seriesWires [] =
      { nodeVoltages := [("r1_1", 0), ("r1_0", 5)],
        componentCurrents := [("r1", 5 / R), ("v1", 0)],
        error := none } := by
  have h1 : expandComponents (seriesComps R) [] = seriesComps R := by
    with_unfolding_all rfl
  have h2 : expandWires (seriesComps R) [] seriesWires = seriesWires := by
    with_unfolding_all rfl
  have h4 : groundOf (seriesComps R) (ufFold seriesWires) = some "r1_1" := by
    with_unfolding_all rfl
  have h5 : nonGroundNodes (seriesComps R) (ufFold seriesWires) "r1_1" =
      ["r1_0"] := by
    with_unfolding_all rfl
  have h6 : assemble (seriesComps R) (ufFold seriesWires) "r1_1" ["r1_0"] =
      ⟨[[1]], [5]⟩ := by
    with_unfolding_all rfl
  have h7 : lusolve [[1]] [5] = some [5] := by with_unfolding_all rfl
  have h8 : voltagesOut "r1_1" ["r1_0"] [5] = [("r1_1", 0), ("r1_0", 5)] := by
    with_unfolding_all rfl
  have h9 : currentsOut (seriesComps R) (ufFold seriesWires) "r1_1" ["r1_0"]
      [5] = [("r1", (5 - 0) / R), ("v1", 0)] := by
    with_unfolding_all rfl
  rw [simulateCircuit_success_form (seriesComps R) seriesWires [] "r1_1" [5]
    rfl (by rw [h1, h2]; exact h4) (by rw [h1, h2, h5, h6]; exact h7)]
  rw [h1, h2, h5, h8, h9]
  norm_num

/-- Witness for the amended C5 at `R = −100`. -/
theorem resistor_value_not_validated_witness :
    simulateCircuit (seriesComps (-100)) seriesWires [] =
      { nodeVoltages := [("r1_1", 0), ("r1_0", 5)],
        componentCurrents := [("r1", 5 / (-100 : ℚ)), ("v1", 0)],
        error := none } :=
  resistor_value_not_validated (-100) (by norm_num)

/-- C7 (amended): an instance whose definition is missing is dropped from
the flattened components as if it had never been listed, but the wire
lists are those of the remaining circuit with every original wire kept —
including wires touching the dropped instance — and nothing about the
condition is recorded (the source only issues `console.warn`). -/
theorem unresolved_instance_dropped_wires_kept
    (cs1 cs2 : List CircuitComponent) (ss : List SubCircuit)
    (ws : List Wire) (inst : CircuitComponent)
    (hinst : isInstanceComp inst = true)
    (hmiss : findDef ss inst = none) :
    expandComponents (cs1 ++ inst :: cs2) ss =
      expandComponents (cs1 ++ cs2) ss ∧
    expandWires (cs1 ++ inst :: cs2) ss ws = expandWires (cs1 ++ cs2) ss ws ∧
    ∀ w ∈ ws, w ∈ expandWires (cs1 ++ inst :: cs2) ss ws := by
  refine ⟨?_, ?_, ?_⟩
  · unfold expandComponents
    rw [List.foldl_append, List.foldl_append, List.foldl_cons, hinst]
    simp only [if_true, hmiss]
  · unfold expandWires
    rw [List.foldl_append, List.foldl_append, List.foldl_cons, hinst]
    simp only [if_true, hmiss]
  · intro w hw
    unfold expandWires
    exact List.mem_append_right _ hw

/-- Witness for the amended C7 at the concrete missing-definition input:
the instance disappears from the flattened components, the wire list is
exactly that of the instance-free circuit, and the touching wire is kept. -/
theorem unresolved_instance_dropped_wires_kept_witness :
    expandComponents unresolvedComps [] =
      expandComponents [mkComp "r1" CompType.resistor 100] [] ∧
    expandWires unresolvedComps [] unresolvedWires =
      expandWires [mkComp "r1" CompType.resistor 100] [] unresolvedWires ∧
    ∀ w ∈ unresolvedWires, w ∈ expandWires unresolvedComps [] unresolvedWires :=
  unresolved_instance_dropped_wires_kept []
    [mkComp "r1" CompType.resistor 100] [] unresolvedWires
    { id := "s1", type := CompType.subcircuit, x := 0, y := 0, value := 0,
      subcircuitId := some "missing" }
    (by decide) (by decide)

/-! ## Frame lemmas: an excluded-kind component wired into existing nodes
does not disturb the solve -/

/-- An excluded kind is none of the kinds the solver branches on. -/
theorem excludedKind_cases (t : CompType) (h : excludedKind t) :
    t ≠ CompType.resistor ∧ t ≠ CompType.voltage ∧
      t ≠ CompType.subcircuit := by
  rcases h with h | h | h | h | h | h <;> subst h <;> refine ⟨?_, ?_, ?_⟩ <;>
    intro h1 <;> cases h1

/-- An excluded-kind component is not a subcircuit instance. -/
theorem isInstanceComp_excluded (c : CircuitComponent)
    (h : excludedKind c.type) : isInstanceComp c = false := by
  unfold isInstanceComp
  have h3 := (excludedKind_cases c.type h).2.2
  simp [h3]

/-- The assembly step ignores an excluded-kind component. -/
theorem assembleStep_excluded (uf : String → String) (g : String)
    (ns : List String) (n : Nat) (s : Sys) (c : CircuitComponent)
    (h : excludedKind c.type) : assembleStep uf g ns n s c = s := by
  obtain ⟨h1, h2, _⟩ := excludedKind_cases c.type h
  simp [assembleStep, h1, h2]

/-- The current fold ignores an excluded-kind component. -/
theorem currentsStep_excluded (uf : String → String) (g : String)
    (ns : List String) (V : List ℚ) (m : List (String × ℚ))
    (c : CircuitComponent) (h : excludedKind c.type) :
    (if c.type = CompType.resistor then
        objSet m c.id
          ((nodeVoltageAt uf g ns V (termStr c.id 0) -
            nodeVoltageAt uf g ns V (termStr c.id 1)) / c.value)
      else if c.type = CompType.voltage then objSet m c.id 0
      else m) = m := by
  obtain ⟨h1, h2, _⟩ := excludedKind_cases c.type h
  simp [h1, h2]

/-- Endpoint strings of an appended wire list. -/
theorem wireEnds_append (l1 l2 : List Wire) :
    wireEnds (l1 ++ l2) = wireEnds l1 ++ wireEnds l2 := by
  induction l1 with
  | nil => rfl
  | cons w rest ih => simp [wireEnds, List.foldr_cons] at ih ⊢; rw [ih]

/-- Endpoint strings of a wire-list cons. -/
theorem wireEnds_cons (w : Wire) (rest : List Wire) :
    wireEnds (w :: rest) = w.fromT.str :: w.toT.str :: wireEnds rest := rfl

/-- A terminal string never seen by any wire is its own root, and nothing
else maps to it. -/
theorem ufFold_fresh (ws : List Wire) (s : String)
    (hs : s ∉ wireEnds ws) : ∀ x, ufFold ws x = s ↔ x = s := by
  have aux : ∀ (l : List Wire) (f : String → String),
      (∀ x, f x = s ↔ x = s) → s ∉ wireEnds l →
      ∀ x, (l.foldl (fun f w => ufUnion f w.fromT.str w.toT.str) f) x = s ↔
        x = s := by
    intro l
    induction l with
    | nil => intro f hf _ x; exact hf x
    | cons w rest ih =>
      intro f hf hsl x
      have hsa : s ≠ w.fromT.str := by
        intro h; exact hsl (by rw [wireEnds_cons]; simp [h])
      have hsb : s ≠ w.toT.str := by
        intro h; exact hsl (by rw [wireEnds_cons]; simp [h])
      have hsrest : s ∉ wireEnds rest := by
        intro h; exact hsl (by rw [wireEnds_cons]; simp [h])
      rw [List.foldl_cons]
      apply ih _ _ hsrest
      intro y
      unfold ufUnion
      split
      · exact hf y
      · show (if f y = f w.toT.str then f w.fromT.str else f y) = s ↔ y = s
        by_cases hcase : f y = f w.toT.str
        · rw [if_pos hcase]
          constructor
          · intro hy
            exact absurd ((hf _).mp hy).symm hsa
          · intro hy
            exfalso
            have h2 : f y = s := (hf y).mpr hy
            rw [h2] at hcase
            exact hsb ((hf _).mp hcase.symm).symm
        · rw [if_neg hcase]
          exact hf y
  exact aux ws id (fun x => Iff.rfl) hs

/-- The union of two distinct classes, pointwise. -/
theorem ufUnion_apply (f : String → String) (a b x : String)
    (hne : f a ≠ f b) :
    ufUnion f a b x = if f x = f b then f a else f x := by
  unfold ufUnion
  show (if f a = f b then f else fun x => if f x = f b then f a else f x) x =
    if f x = f b then f a else f x
  rw [if_neg hne]

/-- Appending two wires that tie the two fresh terminals `t0`, `t1` of a
new component onto existing terminals: every string other than `t0`, `t1`
keeps its root, and `t0`, `t1` are absorbed into the classes of the
respective existing endpoints. -/
theorem ufFold_append_two_fresh (ews : List Wire) (wa wb : Wire)
    (t0 t1 : String)
    (hwa : wa.toT.str = t0) (hwb : wb.toT.str = t1)
    (h0 : t0 ∉ wireEnds ews) (h1 : t1 ∉ wireEnds ews) (h01 : t0 ≠ t1)
    (hfa0 : wa.fromT.str ≠ t0) (hfa1 : wa.fromT.str ≠ t1)
    (hfb0 : wb.fromT.str ≠ t0) (hfb1 : wb.fromT.str ≠ t1) :
    (∀ x, x ≠ t0 → x ≠ t1 →
      ufFold (ews ++ [wa, wb]) x = ufFold ews x) ∧
    ufFold (ews ++ [wa, wb]) t0 = ufFold ews wa.fromT.str ∧
    ufFold (ews ++ [wa, wb]) t1 = ufFold ews wb.fromT.str := by
  have hsplit : ∀ x, ufFold (ews ++ [wa, wb]) x =
      ufUnion (ufUnion (ufFold ews) wa.fromT.str wa.toT.str)
        wb.fromT.str wb.toT.str x := by
    intro x
    unfold ufFold
    rw [List.foldl_append]
    rfl
  have fr0 := ufFold_fresh ews t0 h0
  have fr1 := ufFold_fresh ews t1 h1
  have huft0 : ufFold ews t0 = t0 := (fr0 t0).mpr rfl
  have huft1 : ufFold ews t1 = t1 := (fr1 t1).mpr rfl
  have hBa : ufFold ews wa.toT.str = t0 := by rw [hwa]; exact huft0
  have hra : ufFold ews wa.fromT.str ≠ ufFold ews wa.toT.str := by
    rw [hBa]
    intro h
    exact hfa0 ((fr0 _).mp h)
  -- the first union, pointwise
  have huf1 : ∀ x, ufUnion (ufFold ews) wa.fromT.str wa.toT.str x =
      if ufFold ews x = t0 then ufFold ews wa.fromT.str
      else ufFold ews x := by
    intro x
    rw [ufUnion_apply _ _ _ _ hra, hBa]
  -- facts about the first union
  have huf1_other : ∀ x, x ≠ t0 →
      ufUnion (ufFold ews) wa.fromT.str wa.toT.str x = ufFold ews x := by
    intro x hx
    rw [huf1 x, if_neg (fun h => hx ((fr0 x).mp h))]
  have huf1_t0 : ufUnion (ufFold ews) wa.fromT.str wa.toT.str t0 =
      ufFold ews wa.fromT.str := by
    rw [huf1 t0, if_pos huft0]
  have huf1_ne_t1 : ∀ x, ufUnion (ufFold ews) wa.fromT.str wa.toT.str x = t1
      ↔ x = t1 := by
    intro x
    rw [huf1 x]
    by_cases hc : ufFold ews x = t0
    · rw [if_pos hc]
      constructor
      · intro h; exact absurd ((fr1 _).mp h) hfa1
      · intro h
        exfalso
        rw [h, huft1] at hc
        exact h01 hc.symm
    · rw [if_neg hc]
      exact fr1 x
  -- the second union
  have hBb : ufUnion (ufFold ews) wa.fromT.str wa.toT.str wb.toT.str = t1 := by
    rw [hwb]
    exact (huf1_ne_t1 t1).mpr rfl
  have hrb : ufUnion (ufFold ews) wa.fromT.str wa.toT.str wb.fromT.str ≠
      ufUnion (ufFold ews) wa.fromT.str wa.toT.str wb.toT.str := by
    rw [hBb]
    intro h
    exact hfb1 ((huf1_ne_t1 _).mp h)
  have huf2 : ∀ x,
      ufUnion (ufUnion (ufFold ews) wa.fromT.str wa.toT.str)
        wb.fromT.str wb.toT.str x =
      if ufUnion (ufFold ews) wa.fromT.str wa.toT.str x = t1 then
        ufFold ews wb.fromT.str
      else ufUnion (ufFold ews) wa.fromT.str wa.toT.str x := by
    intro x
    rw [ufUnion_apply _ _ _ _ hrb, hBb, huf1_other _ hfb0]
  refine ⟨?_, ?_, ?_⟩
  · intro x hx0 hx1
    rw [hsplit x, huf2 x,
      if_neg (fun h => hx1 ((huf1_ne_t1 x).mp h)), huf1_other x hx0]
  · rw [hsplit t0, huf2 t0,
      if_neg (fun h => hfa1 ((fr1 _).mp (huf1_t0 ▸ h))), huf1_t0]
  · rw [hsplit t1, huf2 t1, if_pos ((huf1_ne_t1 t1).mpr rfl)]

/-- Terminal strings of a component-list cons. -/
theorem termStrings_cons (c : CircuitComponent)
    (rest : List CircuitComponent) :
    termStrings (c :: rest) =
      termStr c.id 0 :: termStr c.id 1 :: termStrings rest := rfl

/-- A listed component's terminal strings are in the terminal-string list. -/
theorem termStr_mem_termStrings (ecs : List CircuitComponent)
    (c : CircuitComponent) (hc : c ∈ ecs) (k : Nat) (hk : k = 0 ∨ k = 1) :
    termStr c.id k ∈ termStrings ecs := by
  induction ecs with
  | nil => simp at hc
  | cons c0 rest ih =>
    rw [termStrings_cons]
    rcases List.mem_cons.mp hc with rfl | hmem
    · rcases hk with rfl | rfl <;> simp
    · simp [ih hmem]

/-- Inserting an element makes it a member. -/
theorem mem_addUnique_self (l : List String) (x : String) :
    x ∈ addUnique l x := by
  unfold addUnique
  split
  · assumption
  · simp

/-- Insertion preserves membership. -/
theorem mem_addUnique_mono (l : List String) (x y : String) (h : x ∈ l) :
    x ∈ addUnique l y := by
  unfold addUnique
  split
  · exact h
  · simp [h]

/-- Inserting a present element changes nothing. -/
theorem addUnique_of_mem (l : List String) (x : String) (h : x ∈ l) :
    addUnique l x = l := by
  unfold addUnique
  rw [if_pos h]

/-- The node fold only grows its accumulator. -/
theorem nodesFold_mono (ecs : List CircuitComponent) (uf : String → String)
    (acc : List String) (x : String) (h : x ∈ acc) :
    x ∈ ecs.foldl
      (fun l c =>
        addUnique (addUnique l (uf (termStr c.id 0))) (uf (termStr c.id 1)))
      acc := by
  induction ecs generalizing acc with
  | nil => exact h
  | cons c rest ih =>
    exact ih _ (mem_addUnique_mono _ _ _ (mem_addUnique_mono _ _ _ h))

/-- The root of every listed terminal appears in the node list. -/
theorem root_mem_nodesOf (ecs : List CircuitComponent)
    (uf : String → String) (t : String) (ht : t ∈ termStrings ecs) :
    uf t ∈ nodesOf ecs uf := by
  unfold nodesOf
  have aux : ∀ (l : List CircuitComponent) (acc : List String),
      t ∈ termStrings l →
      uf t ∈ l.foldl
        (fun l c =>
          addUnique (addUnique l (uf (termStr c.id 0)))
            (uf (termStr c.id 1)))
        acc := by
    intro l
    induction l with
    | nil => intro acc h; rw [termStrings] at h; simp at h
    | cons c rest ih =>
      intro acc h
      rw [termStrings_cons] at h
      rcases List.mem_cons.mp h with rfl | h2
      · exact nodesFold_mono rest uf _ _
          (mem_addUnique_mono _ _ _ (mem_addUnique_self _ _))
      · rcases List.mem_cons.mp h2 with rfl | h3
        · exact nodesFold_mono rest uf _ _ (mem_addUnique_self _ _)
        · exact ih _ h3
  exact aux ecs [] ht

/-- Node collection only depends on the roots of the listed terminals. -/
theorem nodesOf_congr (ecs : List CircuitComponent)
    (uf2 uf : String → String)
    (h : ∀ x ∈ termStrings ecs, uf2 x = uf x) :
    nodesOf ecs uf2 = nodesOf ecs uf := by
  unfold nodesOf
  have aux : ∀ (l : List CircuitComponent) (acc : List String),
      (∀ x ∈ termStrings l, uf2 x = uf x) →
      l.foldl
        (fun m c =>
          addUnique (addUnique m (uf2 (termStr c.id 0)))
            (uf2 (termStr c.id 1)))
        acc =
      l.foldl
        (fun m c =>
          addUnique (addUnique m (uf (termStr c.id 0)))
            (uf (termStr c.id 1)))
        acc := by
    intro l
    induction l with
    | nil => intro acc _; rfl
    | cons c rest ih =>
      intro acc hl
      rw [List.foldl_cons, List.foldl_cons,
        hl (termStr c.id 0) (by rw [termStrings_cons]; simp),
        hl (termStr c.id 1) (by rw [termStrings_cons]; simp)]
      exact ih _ fun x hx => hl x (by rw [termStrings_cons]; simp [hx])
  exact aux ecs [] h

/-- Node collection over an appended single component. -/
theorem nodesOf_append_single (ecs : List CircuitComponent)
    (cap : CircuitComponent) (uf : String → String) :
    nodesOf (ecs ++ [cap]) uf =
      addUnique (addUnique (nodesOf ecs uf) (uf (termStr cap.id 0)))
        (uf (termStr cap.id 1)) := by
  unfold nodesOf
  rw [List.foldl_append]
  rfl

/-- Ground selection ignores an appended excluded-kind component and sees
only the roots of the existing terminals. -/
theorem groundOf_append_excluded (ecs : List CircuitComponent)
    (cap : CircuitComponent) (uf2 uf : String → String)
    (hcap : excludedKind cap.type)
    (hagree : ∀ x ∈ termStrings ecs, uf2 x = uf x)
    (hne : ecs ≠ []) :
    groundOf (ecs ++ [cap]) uf2 = groundOf ecs uf := by
  have hcapv : (decide (cap.type = CompType.voltage)) = false := by
    simp [(excludedKind_cases cap.type hcap).2.1]
  cases hfind : ecs.find? (fun c => decide (c.type = CompType.voltage)) with
  | some v =>
    have hv : v ∈ ecs := List.mem_of_find?_eq_some hfind
    have hfind2 : (ecs ++ [cap]).find?
        (fun c => decide (c.type = CompType.voltage)) = some v := by
      rw [List.find?_append, hfind]
      rfl
    simp only [groundOf, hfind2, hfind]
    rw [hagree (termStr v.id 1)
      (termStr_mem_termStrings ecs v hv 1 (Or.inr rfl))]
  | none =>
    cases ecs with
    | nil => exact absurd rfl hne
    | cons c0 rest =>
      have hfind2 : (c0 :: (rest ++ [cap])).find?
          (fun c => decide (c.type = CompType.voltage)) = none := by
        rw [← List.cons_append, List.find?_append, hfind]
        simp [List.find?, hcapv]
      simp only [List.cons_append, groundOf, hfind2, hfind]
      rw [hagree (termStr c0.id 0)
        (termStr_mem_termStrings _ c0 (by simp) 0 (Or.inl rfl))]

/-- One assembly step only uses the roots of the component's terminals. -/
theorem assembleStep_congr (uf2 uf : String → String) (g : String)
    (ns : List String) (n : Nat) (s : Sys) (c : CircuitComponent)
    (h0 : uf2 (termStr c.id 0) = uf (termStr c.id 0))
    (h1 : uf2 (termStr c.id 1) = uf (termStr c.id 1)) :
    assembleStep uf2 g ns n s c = assembleStep uf g ns n s c := by
  simp only [assembleStep, h0, h1]

/-- Assembly ignores an appended excluded-kind component and sees only the
roots of the existing terminals. -/
theorem assemble_append_excluded (ecs : List CircuitComponent)
    (cap : CircuitComponent) (uf2 uf : String → String) (g : String)
    (ns : List String)
    (hcap : excludedKind cap.type)
    (hagree : ∀ x ∈ termStrings ecs, uf2 x = uf x) :
    assemble (ecs ++ [cap]) uf2 g ns = assemble ecs uf g ns := by
  unfold assemble
  rw [List.foldl_append, List.foldl_cons, List.foldl_nil,
    assembleStep_excluded uf2 g ns ns.length _ cap hcap]
  have aux : ∀ (l : List CircuitComponent) (s0 : Sys),
      (∀ x ∈ termStrings l, uf2 x = uf x) →
      l.foldl (assembleStep uf2 g ns ns.length) s0 =
        l.foldl (assembleStep uf g ns ns.length) s0 := by
    intro l
    induction l with
    | nil => intro s0 _; rfl
    | cons c rest ih =>
      intro s0 hl
      rw [List.foldl_cons, List.foldl_cons,
        assembleStep_congr uf2 uf g ns ns.length s0 c
          (hl _ (by rw [termStrings_cons]; simp))
          (hl _ (by rw [termStrings_cons]; simp))]
      exact ih _ fun x hx => hl x (by rw [termStrings_cons]; simp [hx])
  exact aux ecs _ hagree

/-- The reported terminal voltage only uses the terminal's root. -/
theorem nodeVoltageAt_congr (uf2 uf : String → String) (g : String)
    (ns : List String) (V : List ℚ) (t : String) (h : uf2 t = uf t) :
    nodeVoltageAt uf2 g ns V t = nodeVoltageAt uf g ns V t := by
  unfold nodeVoltageAt
  rw [h]

/-- Current composition ignores an appended excluded-kind component and
sees only the roots of the existing terminals. -/
theorem currentsOut_append_excluded (ecs : List CircuitComponent)
    (cap : CircuitComponent) (uf2 uf : String → String) (g : String)
    (ns : List String) (V : List ℚ)
    (hcap : excludedKind cap.type)
    (hagree : ∀ x ∈ termStrings ecs, uf2 x = uf x) :
    currentsOut (ecs ++ [cap]) uf2 g ns V = currentsOut ecs uf g ns V := by
  unfold currentsOut
  rw [List.foldl_append, List.foldl_cons, List.foldl_nil,
    currentsStep_excluded uf2 g ns V _ cap hcap]
  have aux : ∀ (l : List CircuitComponent) (m : List (String × ℚ)),
      (∀ x ∈ termStrings l, uf2 x = uf x) →
      l.foldl
        (fun m c =>
          if c.type = CompType.resistor then
            objSet m c.id
              ((nodeVoltageAt uf2 g ns V (termStr c.id 0) -
                nodeVoltageAt uf2 g ns V (termStr c.id 1)) / c.value)
          else if c.type = CompType.voltage then objSet m c.id 0
          else m) m =
      l.foldl
        (fun m c =>
          if c.type = CompType.resistor then
            objSet m c.id
              ((nodeVoltageAt uf g ns V (termStr c.id 0) -
                nodeVoltageAt uf g ns V (termStr c.id 1)) / c.value)
          else if c.type = CompType.voltage then objSet m c.id 0
          else m) m := by
    intro l
    induction l with
    | nil => intro m _; rfl
    | cons c rest ih =>
      intro m hl
      rw [List.foldl_cons, List.foldl_cons,
        nodeVoltageAt_congr uf2 uf g ns V (termStr c.id 0)
          (hl _ (by rw [termStrings_cons]; simp)),
        nodeVoltageAt_congr uf2 uf g ns V (termStr c.id 1)
          (hl _ (by rw [termStrings_cons]; simp))]
      exact ih _ fun x hx => hl x (by rw [termStrings_cons]; simp [hx])
  exact aux ecs _ hagree

/-- A key that is no listed component's id is absent from the current
mapping. -/
theorem currentsOut_absent (ecs : List CircuitComponent)
    (uf : String → String) (g : String) (ns : List String) (V : List ℚ)
    (k : String) (h : ∀ c ∈ ecs, c.id ≠ k) :
    objGet (currentsOut ecs uf g ns V) k = none := by
  unfold currentsOut
  have aux : ∀ (l : List CircuitComponent) (m : List (String × ℚ)),
      (∀ c ∈ l, c.id ≠ k) → objGet m k = none →
      objGet
        (l.foldl
          (fun m c =>
            if c.type = CompType.resistor then
              objSet m c.id
                ((nodeVoltageAt uf g ns V (termStr c.id 0) -
                  nodeVoltageAt uf g ns V (termStr c.id 1)) / c.value)
            else if c.type = CompType.voltage then objSet m c.id 0
            else m) m) k = none := by
    intro l
    induction l with
    | nil => intro m _ hm; exact hm
    | cons c rest ih =>
      intro m hl hm
      rw [List.foldl_cons]
      refine ih _ (fun x hx => hl x (by simp [hx])) ?_
      have hck : c.id ≠ k := hl c (by simp)
      split
      · rw [objGet_objSet_ne _ _ _ _ hck]; exact hm
      · split
        · rw [objGet_objSet_ne _ _ _ _ hck]; exact hm
        · exact hm
  exact aux ecs [] h rfl

/-- Flattening past an appended non-instance component. -/
theorem expandComponents_append_single (cs : List CircuitComponent)
    (ss : List SubCircuit) (cap : CircuitComponent)
    (h : isInstanceComp cap = false) :
    expandComponents (cs ++ [cap]) ss = expandComponents cs ss ++ [cap] := by
  unfold expandComponents
  rw [List.foldl_append, List.foldl_cons, List.foldl_nil, h]
  rfl

/-- Wire flattening past an appended non-instance component and two
appended wires. -/
theorem expandWires_append_single (cs : List CircuitComponent)
    (ss : List SubCircuit) (ws : List Wire) (cap : CircuitComponent)
    (wa wb : Wire) (h : isInstanceComp cap = false) :
    expandWires (cs ++ [cap]) ss (ws ++ [wa, wb]) =
      expandWires cs ss ws ++ [wa, wb] := by
  unfold expandWires
  rw [List.foldl_append, List.foldl_cons, List.foldl_nil, h]
  show (cs.foldl _ []) ++ (ws ++ [wa, wb]) = _
  rw [← List.append_assoc]

/-- A non-empty flattened list always gets a ground node. -/
theorem groundOf_some_of_ne_nil (ecs : List CircuitComponent)
    (uf : String → String) (h : ecs ≠ []) :
    ∃ g, groundOf ecs uf = some g := by
  unfold groundOf
  cases hfind : ecs.find? (fun c => decide (c.type = CompType.voltage)) with
  | some v => exact ⟨uf (termStr v.id 1), rfl⟩
  | none =>
    cases ecs with
    | nil => exact absurd rfl h
    | cons c0 rest => exact ⟨uf (termStr c0.id 0), rfl⟩

/-- The terminal strings of an empty list are empty. -/
theorem termStrings_nil : termStrings [] = [] := rfl

/-- C6 (amended): appending an excluded-kind component whose two terminals
are wired into existing nodes (each added wire runs from an existing
terminal to one of the new component's terminals, whose ids are fresh)
leaves the solve result unchanged — same outcome, same node voltages, same
currents of the remaining network — and the new component's id is absent
from `componentCurrents`; it is not reported as 0. -/
theorem excluded_component_frame (cs : List CircuitComponent)
    (ws : List Wire) (ss : List SubCircuit) (cap : CircuitComponent)
    (wa wb : Wire)
    (hkind : excludedKind cap.type)
    (hwa : wa.toT.str = termStr cap.id 0)
    (hwb : wb.toT.str = termStr cap.id 1)
    (hw0 : termStr cap.id 0 ∉ wireEnds (expandWires cs ss ws))
    (hw1 : termStr cap.id 1 ∉ wireEnds (expandWires cs ss ws))
    (ht0 : termStr cap.id 0 ∉ termStrings (expandComponents cs ss))
    (ht1 : termStr cap.id 1 ∉ termStrings (expandComponents cs ss))
    (h01 : termStr cap.id 0 ≠ termStr cap.id 1)
    (hma : wa.fromT.str ∈ termStrings (expandComponents cs ss))
    (hmb : wb.fromT.str ∈ termStrings (expandComponents cs ss))
    (hid : ∀ c ∈ expandComponents cs ss, c.id ≠ cap.id) :
    simulateCircuit (cs ++ [cap]) (ws ++ [wa, wb]) ss =
      simulateCircuit cs ws ss ∧
    objGet
      (simulateCircuit (cs ++ [cap]) (ws ++ [wa, wb]) ss).componentCurrents
      cap.id = none := by
  have hinstF : isInstanceComp cap = false := isInstanceComp_excluded cap hkind
  have hecs2 : expandComponents (cs ++ [cap]) ss =
      expandComponents cs ss ++ [cap] :=
    expandComponents_append_single cs ss cap hinstF
  have hews2 : expandWires (cs ++ [cap]) ss (ws ++ [wa, wb]) =
      expandWires cs ss ws ++ [wa, wb] :=
    expandWires_append_single cs ss ws cap wa wb hinstF
  have hfa0 : wa.fromT.str ≠ termStr cap.id 0 := fun h => ht0 (h ▸ hma)
  have hfa1 : wa.fromT.str ≠ termStr cap.id 1 := fun h => ht1 (h ▸ hma)
  have hfb0 : wb.fromT.str ≠ termStr cap.id 0 := fun h => ht0 (h ▸ hmb)
  have hfb1 : wb.fromT.str ≠ termStr cap.id 1 := fun h => ht1 (h ▸ hmb)
  obtain ⟨hagree0, huft0, huft1⟩ :=
    ufFold_append_two_fresh (expandWires cs ss ws) wa wb
      (termStr cap.id 0) (termStr cap.id 1) hwa hwb hw0 hw1 h01
      hfa0 hfa1 hfb0 hfb1
  have hagree : ∀ x ∈ termStrings (expandComponents cs ss),
      ufFold (expandWires cs ss ws ++ [wa, wb]) x =
        ufFold (expandWires cs ss ws) x := by
    intro x hx
    exact hagree0 x (fun h => ht0 (h ▸ hx)) (fun h => ht1 (h ▸ hx))
  have hecsne : expandComponents cs ss ≠ [] := by
    intro h
    rw [h, termStrings_nil] at hma
    simp at hma
  have hcsne : cs.isEmpty = false := by
    cases cs with
    | nil => exact absurd rfl hecsne
    | cons a l => rfl
  have hcs2ne : (cs ++ [cap]).isEmpty = false := by cases cs <;> rfl
  obtain ⟨g, hg⟩ := groundOf_some_of_ne_nil (expandComponents cs ss)
    (ufFold (expandWires cs ss ws)) hecsne
  have hground2 : groundOf (expandComponents (cs ++ [cap]) ss)
      (ufFold (expandWires (cs ++ [cap]) ss (ws ++ [wa, wb]))) = some g := by
    rw [hecs2, hews2,
      groundOf_append_excluded _ cap _ _ hkind hagree hecsne, hg]
  have hnodes : nodesOf (expandComponents cs ss ++ [cap])
      (ufFold (expandWires cs ss ws ++ [wa, wb])) =
      nodesOf (expandComponents cs ss) (ufFold (expandWires cs ss ws)) := by
    rw [nodesOf_append_single, nodesOf_congr _ _ _ hagree, huft0, huft1,
      addUnique_of_mem _ _ (root_mem_nodesOf _ _ _ hma),
      addUnique_of_mem _ _ (root_mem_nodesOf _ _ _ hmb)]
  have hns : nonGroundNodes (expandComponents cs ss ++ [cap])
      (ufFold (expandWires cs ss ws ++ [wa, wb])) g =
      nonGroundNodes (expandComponents cs ss)
        (ufFold (expandWires cs ss ws)) g := by
    unfold nonGroundNodes
    rw [hnodes]
  have hassemble : assemble (expandComponents cs ss ++ [cap])
      (ufFold (expandWires cs ss ws ++ [wa, wb])) g
      (nonGroundNodes (expandComponents cs ss)
        (ufFold (expandWires cs ss ws)) g) =
      assemble (expandComponents cs ss) (ufFold (expandWires cs ss ws)) g
        (nonGroundNodes (expandComponents cs ss)
          (ufFold (expandWires cs ss ws)) g) :=
    assemble_append_excluded _ cap _ _ g _ hkind hagree
  cases hl : lusolve
      (assemble (expandComponents cs ss) (ufFold (expandWires cs ss ws)) g
        (nonGroundNodes (expandComponents cs ss)
          (ufFold (expandWires cs ss ws)) g)).G
      (assemble (expandComponents cs ss) (ufFold (expandWires cs ss ws)) g
        (nonGroundNodes (expandComponents cs ss)
          (ufFold (expandWires cs ss ws)) g)).I with
  | none =>
    have hl2 : lusolve
        (assemble (expandComponents (cs ++ [cap]) ss)
          (ufFold (expandWires (cs ++ [cap]) ss (ws ++ [wa, wb]))) g
          (nonGroundNodes (expandComponents (cs ++ [cap]) ss)
            (ufFold (expandWires (cs ++ [cap]) ss (ws ++ [wa, wb]))) g)).G
        (assemble (expandComponents (cs ++ [cap]) ss)
          (ufFold (expandWires (cs ++ [cap]) ss (ws ++ [wa, wb]))) g
          (nonGroundNodes (expandComponents (cs ++ [cap]) ss)
            (ufFold (expandWires (cs ++ [cap]) ss (ws ++ [wa, wb]))) g)).I
        = none := by
      rw [hecs2, hews2, hns, hassemble]
      exact hl
    have hbase := simulateCircuit_fail_form cs ws ss g hcsne hg hl
    have hnew := simulateCircuit_fail_form (cs ++ [cap]) (ws ++ [wa, wb]) ss
      g hcs2ne hground2 hl2
    rw [hbase, hnew]
    exact ⟨rfl, rfl⟩
  | some V =>
    have hl2 : lusolve
        (assemble (expandComponents (cs ++ [cap]) ss)
          (ufFold (expandWires (cs ++ [cap]) ss (ws ++ [wa, wb]))) g
          (nonGroundNodes (expandComponents (cs ++ [cap]) ss)
            (ufFold (expandWires (cs ++ [cap]) ss (ws ++ [wa, wb]))) g)).G
        (assemble (expandComponents (cs ++ [cap]) ss)
          (ufFold (expandWires (cs ++ [cap]) ss (ws ++ [wa, wb]))) g
          (nonGroundNodes (expandComponents (cs ++ [cap]) ss)
            (ufFold (expandWires (cs ++ [cap]) ss (ws ++ [wa, wb]))) g)).I
        = some V := by
      rw [hecs2, hews2, hns, hassemble]
      exact hl
    have hbase := simulateCircuit_success_form cs ws ss g V hcsne hg hl
    have hnew := simulateCircuit_success_form (cs ++ [cap]) (ws ++ [wa, wb])
      ss g V hcs2ne hground2 hl2
    have hcur : currentsOut (expandComponents (cs ++ [cap]) ss)
        (ufFold (expandWires (cs ++ [cap]) ss (ws ++ [wa, wb]))) g
        (nonGroundNodes (expandComponents (cs ++ [cap]) ss)
          (ufFold (expandWires (cs ++ [cap]) ss (ws ++ [wa, wb]))) g) V =
        currentsOut (expandComponents cs ss)
          (ufFold (expandWires cs ss ws)) g
          (nonGroundNodes (expandComponents cs ss)
            (ufFold (expandWires cs ss ws)) g) V := by
      rw [hecs2, hews2, hns,
        currentsOut_append_excluded _ cap _ _ g _ V hkind hagree]
    have hvolt : voltagesOut g
        (nonGroundNodes (expandComponents (cs ++ [cap]) ss)
          (ufFold (expandWires (cs ++ [cap]) ss (ws ++ [wa, wb]))) g) V =
        voltagesOut g
          (nonGroundNodes (expandComponents cs ss)
            (ufFold (expandWires cs ss ws)) g) V := by
      rw [hecs2, hews2, hns]
    constructor
    · rw [hbase, hnew, hcur, hvolt]
    · rw [hnew]
      show objGet (currentsOut (expandComponents (cs ++ [cap]) ss) _ g _ V)
        cap.id = none
      rw [hcur]
      exact currentsOut_absent _ _ g _ V cap.id hid

/-- Witness for the amended C6: wiring a capacitor across the resistor of
the one-resistor circuit leaves the solve result unchanged, and the
capacitor has no entry in the current mapping. -/
theorem excluded_component_frame_witness :
    simulateCircuit (seriesComps 100 ++ [mkComp "c1" CompType.capacitor 1])
        (seriesWires ++ [mkWire "w3" "r1" 0 "c1" 0, mkWire "w4" "r1" 1 "c1" 1])
        [] =
      simulateCircuit (seriesComps 100) seriesWires [] ∧
    objGet
      (simulateCircuit (seriesComps 100 ++ [mkComp "c1" CompType.capacitor 1])
        (seriesWires ++ [mkWire "w3" "r1" 0 "c1" 0, mkWire "w4" "r1" 1 "c1" 1])
        []).componentCurrents "c1" = none :=
  excluded_component_frame (seriesComps 100) seriesWires []
    (mkComp "c1" CompType.capacitor 1)
    (mkWire "w3" "r1" 0 "c1" 0) (mkWire "w4" "r1" 1 "c1" 1)
    (by decide) (by decide) (by decide) (by decide) (by decide) (by decide)
    (by decide) (by decide) (by decide) (by decide) (by decide)
